import Mathlib

/-!
Verification development for the QuakerCMS locale-aware navigation menu
resolution engine (navigation app) and the locale lifecycle engine
(locales app).

The definitions below are a shallow embedding of the Python source:
- `src/navigation/templatetags/navigation_tags.py` (menu resolution),
- `src/locales/models.py` (LocaleSettings.clean / save sync),
- `src/locales/management/commands/sync_locales.py` (sync command),
- `src/locales/utils.py` (get_language_settings),
- `src/core/constants.py` (language constants).

The content store is modelled as a list of page rows; Wagtail collaborator
primitives (get_translation, queryset filter/count, Locale registry) are
embedded as explicit list operations over that store.
-/

namespace QuakerCMS

/-- Embedded page row of the content store: id, published flag, title, url,
locale code and translation key, mirroring the fields of a Wagtail Page that
the navigation and locales code reads. -/
structure Page where
  id : Nat
  live : Bool
  title : String
  url : String
  locale : String
  translationKey : Nat
deriving Repr, DecidableEq

/-- Lookup of a page by primary key in a store (models both the
PageChooserBlock dereference of a stored page id and the dict lookup in the
prefetched pages cache). A dangling reference yields none. -/
def storeFind (store : List Page) (pid : Nat) : Option Page :=
  store.find? (fun p => p.id == pid)

/-- Embedding of Wagtail TranslatableMixin.get_translation: the row sharing
the translation key of the given page in the requested locale, none when no
such row exists (Page.DoesNotExist). No filtering on the live flag happens
here, exactly as in Wagtail. -/
def getTranslation (store : List Page) (page : Page) (locale : String) :
    Option Page :=
  store.find? (fun q => q.translationKey == page.translationKey && q.locale == locale)

/-- Dropdown child menu item: the MenuItemBlock schema admits only the two
link variants (page_link, external_link), which is the structural two-level
cap of blocks.py. -/
inductive LinkItem where
  | pageLink (pageId : Nat) (customTitle : String) (anchor : String)
  | externalLink (url : String) (title : String) (anchor : String)
deriving Repr, DecidableEq

/-- Top-level menu item of TopLevelMenuBlock: a link or a dropdown whose
children are restricted to LinkItem by the schema. -/
inductive MenuItem where
  | pageLink (pageId : Nat) (customTitle : String) (anchor : String)
  | externalLink (url : String) (title : String) (anchor : String)
  | dropdown (title : String) (items : List LinkItem)
deriving Repr, DecidableEq

/-- Resolved link dictionary produced by process_menu_item for the two link
variants: the keys type, page, url, title and is_current of the returned
Python dict. -/
structure ResolvedLink where
  type : String
  page : Option Page
  url : String
  title : String
  is_current : Bool
deriving Repr, DecidableEq

/-- Resolved menu item: a resolved link or a resolved dropdown dict with
keys title, items and is_open. -/
inductive ResolvedItem where
  | link (l : ResolvedLink)
  | dropdown (title : String) (items : List ResolvedLink) (is_open : Bool)
deriving Repr, DecidableEq

/-- Locale fallback cascade of process_menu_item for a live page: try the
translation into the current locale, on Page.DoesNotExist try the default
locale, and finally fall back to the original page. Mirrors the nested
try/except of navigation_tags.py lines 99-107. -/
def localizedPageOf (store : List Page) (page : Page)
    (currentLocale defaultLocale : String) : Page :=
  match getTranslation store page currentLocale with
  | some t => t
  | none =>
    match getTranslation store page defaultLocale with
    | some t => t
    | none => page

/-- Cache consultation step of process_menu_item: when a pages cache was
passed (pages_cache is truthy, so non-None and non-empty) and it contains
the page id, substitute the cached page; otherwise keep the page as
dereferenced from the item value. -/
def cacheLookupPage (pagesCache : Option (List Page)) (page0 : Page) : Page :=
  match pagesCache with
  | none => page0
  | some cache =>
    if cache.isEmpty then page0
    else
      match storeFind cache page0.id with
      | some cp => cp
      | none => page0

/-- Embedding of process_menu_item restricted to the two link block types
(the branch taken for every dropdown child and for top-level links).
Follows the source order: dereference the page, live check, cache
substitution, locale cascade, anchor append, title override, is_current. -/
def processLinkItem (store : List Page) (currentLocale defaultLocale : String)
    (currentPage : Option Page) (pagesCache : Option (List Page)) :
    LinkItem → Option ResolvedLink
  | .pageLink pageId customTitle anchor =>
    match storeFind store pageId with
    | none => none
    | some page0 =>
      if !page0.live then none
      else
        let page := cacheLookupPage pagesCache page0
        let localizedPage := localizedPageOf store page currentLocale defaultLocale
        let url := if anchor = "" then localizedPage.url
                   else localizedPage.url ++ "#" ++ anchor
        some { type := "page_link"
               page := some localizedPage
               url := url
               title := if customTitle = "" then localizedPage.title else customTitle
               is_current :=
                 match currentPage with
                 | some cp => cp.id == localizedPage.id
                 | none => false }
  | .externalLink u t anchor =>
    some { type := "external_link"
           page := none
           url := if anchor = "" then u else u ++ "#" ++ anchor
           title := t
           is_current := false }

/-- Dropdown child loop of process_menu_item: accumulates the list of
resolved children (child_items) and the has_current flag, exactly as the
for-loop over item.value.get("items", []). -/
def processChildren (store : List Page) (currentLocale defaultLocale : String)
    (currentPage : Option Page) (pagesCache : Option (List Page))
    (children : List LinkItem) : List ResolvedLink × Bool :=
  children.foldl
    (fun acc child =>
      match processLinkItem store currentLocale defaultLocale currentPage pagesCache child with
      | some c => (acc.1 ++ [c], acc.2 || c.is_current)
      | none => acc)
    ([], false)

/-- Embedding of process_menu_item over a top-level menu item. The page_link
and external_link branches are the shared link logic; the dropdown branch
resolves the children, drops the dropdown when no child resolved, and sets
is_open to the accumulated has_current flag. -/
def processMenuItem (store : List Page) (currentLocale defaultLocale : String)
    (currentPage : Option Page) (pagesCache : Option (List Page)) :
    MenuItem → Option ResolvedItem
  | .pageLink pageId customTitle anchor =>
    (processLinkItem store currentLocale defaultLocale currentPage pagesCache
      (.pageLink pageId customTitle anchor)).map .link
  | .externalLink u t anchor =>
    (processLinkItem store currentLocale defaultLocale currentPage pagesCache
      (.externalLink u t anchor)).map .link
  | .dropdown title children =>
    let res := processChildren store currentLocale defaultLocale currentPage
      pagesCache children
    if res.1.isEmpty then none
    else some (.dropdown title res.1 res.2)

/-- Page ids referenced by one dropdown child, as collected by
_collect_page_ids: the id of the page reference when it dereferences (a
dangling reference contributes nothing). -/
def collectChildPageIds (store : List Page) : LinkItem → List Nat
  | .pageLink pid _ _ => if (storeFind store pid).isSome then [pid] else []
  | .externalLink _ _ _ => []

/-- Page ids referenced by a top-level menu item (_collect_page_ids),
recursing into dropdown children. -/
def collectPageIds (store : List Page) : MenuItem → List Nat
  | .pageLink pid _ _ => if (storeFind store pid).isSome then [pid] else []
  | .externalLink _ _ _ => []
  | .dropdown _ items => items.flatMap (collectChildPageIds store)

/-- Prefetch step of navigation_menu: Page.objects.filter(id__in=page_ids)
materialized as the pages cache. -/
def buildPagesCache (store : List Page) (ids : List Nat) : List Page :=
  store.filter (fun p => p.id ∈ ids)

/-- Embedding of the navigation_menu template tag body after settings are
loaded: collect referenced page ids, build the pages cache once, then
process every top-level item with the cache, keeping the non-none results
in order. -/
def navigationMenu (store : List Page) (items : List MenuItem)
    (currentLocale defaultLocale : String) (currentPage : Option Page) :
    List ResolvedItem :=
  if items.isEmpty then []
  else
    let ids := items.flatMap (collectPageIds store)
    let cache := buildPagesCache store ids
    items.filterMap (processMenuItem store currentLocale defaultLocale currentPage (some cache))

/-- Resolution of the menu without any prefetched cache (pages_cache =
None): every page is dereferenced against the store directly. -/
def resolveMenuNoCache (store : List Page) (items : List MenuItem)
    (currentLocale defaultLocale : String) (currentPage : Option Page) :
    List ResolvedItem :=
  items.filterMap (processMenuItem store currentLocale defaultLocale currentPage none)

/-- Embedded translatable Django model for the sync command: app label,
model class name, and the locale code of each of its rows. The command
discovers these by scanning apps.get_models() for a locale ForeignKey. -/
structure TransModel where
  appLabel : String
  modelName : String
  localeRows : List String
deriving Repr, DecidableEq

/-- Count of rows of one model referencing a locale
(model.objects.filter(locale=locale).count()). -/
def modelCount (m : TransModel) (code : String) : Nat :=
  (m.localeRows.filter (fun c => c == code)).length

/-- Database state the locales code reads: the Page table plus every other
translatable model (models with a locale ForeignKey besides
wagtailcore.Page). -/
structure UsageDb where
  pages : List Page
  otherModels : List TransModel
deriving Repr, DecidableEq

/-- The wagtailcore.Page entry of the translatable model scan: its rows are
exactly the pages of the store. -/
def pageModelOf (db : UsageDb) : TransModel :=
  ⟨"wagtailcore", "Page", db.pages.map (fun p => p.locale)⟩

/-- Embedding of Command.get_translatable_models: every model carrying a
locale ForeignKey, which always includes wagtailcore.Page. -/
def getTranslatableModels (db : UsageDb) : List TransModel :=
  pageModelOf db :: db.otherModels

/-- Embedding of Command.get_locale_usage: per-model breakdown of rows
referencing the locale, keeping only models with a positive count, keyed by
the formatted model name "{app_label}.{Name}". -/
def getLocaleUsage (db : UsageDb) (code : String) : List (String × Nat) :=
  (getTranslatableModels db).filterMap
    (fun m =>
      if 0 < modelCount m code
      then some (m.appLabel ++ "." ++ m.modelName, modelCount m code)
      else none)

/-- Total usage of a locale across the breakdown (sum(usage.values())). -/
def usageTotal (usage : List (String × Nat)) : Nat :=
  usage.foldl (fun a p => a + p.2) 0

/-- Page count used by LocaleSettings.clean for its in-use check
(Page.objects.filter(locale=locale).count()): Page rows only. -/
def cleanPageCount (db : UsageDb) (code : String) : Nat :=
  (db.pages.filter (fun p => p.locale == code)).length

/-- LANGUAGE_CHOICES of core/constants.py. -/
def LANGUAGE_CHOICES : List (String × String) :=
  [("en", "English"), ("es", "Spanish / Espanol"), ("fr", "French / Francais"),
   ("de", "German / Deutsch"), ("pt", "Portuguese / Portugues"),
   ("it", "Italian / Italiano"), ("nl", "Dutch / Nederlands"),
   ("da", "Danish / Dansk"), ("sv", "Swedish / Svenska"),
   ("no", "Norwegian / Norsk"), ("fi", "Finnish / Suomi"),
   ("is", "Icelandic / Islenska"), ("ru", "Russian / Russkij"),
   ("ja", "Japanese"), ("zh-hans", "Chinese Simplified"),
   ("zh-hant", "Chinese Traditional"), ("ko", "Korean"),
   ("ar", "Arabic"), ("sw", "Swahili / Kiswahili")]

/-- DEFAULT_LANGUAGE_CODE of core/constants.py. -/
def DEFAULT_LANGUAGE_CODE : String := "en-us"

/-- DEFAULT_LANGUAGES of core/constants.py. -/
def DEFAULT_LANGUAGES : List (String × String) := [("en", "English")]

/-- Display name of a language code: dict(LANGUAGE_CHOICES).get(code, code). -/
def languageDisplayName (code : String) : String :=
  match LANGUAGE_CHOICES.find? (fun p => p.1 == code) with
  | some p => p.2
  | none => code

/-- Validation errors raised by LocaleSettings.clean. -/
inductive CleanError where
  | emptyLanguageSet
  | defaultNotInSet
  | localeInUse (code : String) (displayName : String) (count : Nat)
deriving Repr, DecidableEq

/-- The LocaleSettings fields the clean and save logic reads; persisted
models self.pk being set (an update rather than a creation). -/
structure LocaleSettingsModel where
  persisted : Bool
  default_language : String
  available_languages : List String
deriving Repr, DecidableEq

/-- Embedding of LocaleSettings.clean: empty language set check, default
membership check, then (only for persisted rows) the in-use check over the
Locale registry entries not in available_languages, raising on the first
locale with a positive Page count. -/
def cleanSettings (db : UsageDb) (registry : List String)
    (s : LocaleSettingsModel) : Except CleanError Unit :=
  if s.available_languages = [] then .error .emptyLanguageSet
  else if s.default_language ∉ s.available_languages then .error .defaultNotInSet
  else if s.persisted then
    match registry.find?
        (fun code => decide (code ∉ s.available_languages
          ∧ 0 < cleanPageCount db code)) with
    | some code =>
      .error (.localeInUse code (languageDisplayName code) (cleanPageCount db code))
    | none => .ok ()
  else .ok ()

/-- Embedding of the locale sync in LocaleSettings.save: when
available_languages is non-empty, create a registry entry for each desired
code not already present; never delete. Returns the new registry and the
created codes. -/
def syncCreateOnly (registry : List String) (available : List String) :
    List String × List String :=
  if available = [] then (registry, [])
  else
    let desired := available.dedup
    let created := desired.filter (fun c => c ∉ registry)
    (registry ++ created, created)

/-- Report of one sync_locales run: final registry, created codes, removed
codes, and blocked locales with their usage breakdown and total count. -/
structure SyncOutcome where
  registry : List String
  created : List String
  removed : List String
  blocked : List (String × List (String × Nat) × Nat)
deriving Repr, DecidableEq

/-- Removal loop of Command.handle under --remove-unused: iterate the
pre-creation registry entries; for codes not desired, compute the usage
breakdown; report blocked (with breakdown and total) when non-empty,
otherwise delete and report removed. Returns (removed, blocked). -/
def removeUnusedLoop (db : UsageDb) (existing : List String)
    (desired : List String) : List String × List (String × List (String × Nat) × Nat) :=
  existing.foldl
    (fun acc code =>
      if code ∈ desired then acc
      else
        let usage := getLocaleUsage db code
        if usage = [] then (acc.1 ++ [code], acc.2)
        else (acc.1, acc.2 ++ [(code, usage, usageTotal usage)]))
    ([], [])

/-- Embedding of Command.handle after the two early returns: capture the
existing registry, create missing desired locales, then optionally run the
removal loop and delete the removed codes from the registry. -/
def syncWithRemoval (db : UsageDb) (registry : List String)
    (desired : List String) (removeUnused : Bool) : SyncOutcome :=
  let existing := registry
  let created := desired.filter (fun c => c ∉ existing)
  let registry1 := registry ++ created
  if removeUnused then
    let rb := removeUnusedLoop db existing desired
    ⟨registry1.filter (fun c => c ∉ rb.1), created, rb.1, rb.2⟩
  else ⟨registry1, created, [], []⟩

/-- Embedding of Command.handle of sync_locales: early return when no
LocaleSettings row exists, collect the desired codes as the union of all
non-empty available_languages lists, early return when that union is empty,
then run the sync with optional removal. -/
def syncLocalesHandle (db : UsageDb) (settingsRows : List (List String))
    (removeUnused : Bool) (registry : List String) : SyncOutcome :=
  if settingsRows = [] then ⟨registry, [], [], []⟩
  else
    let desired := settingsRows.flatten.dedup
    if desired = [] then ⟨registry, [], [], []⟩
    else syncWithRemoval db registry desired removeUnused

/-- Embedding of LocaleSettings.get_available_languages_list: empty list
when no languages are configured, otherwise each non-empty code paired with
its display name (falling back to the raw code). -/
def getAvailableLanguagesList (available : List String) : List (String × String) :=
  if available = [] then []
  else available.filterMap
    (fun code => if code = "" then none else some (code, languageDisplayName code))

/-- Site row as read by get_language_settings: id and the default-site
flag. -/
structure SiteModel where
  id : Nat
  is_default_site : Bool
deriving Repr, DecidableEq

/-- LocaleSettings row keyed by its site. -/
structure LocaleSettingsRow where
  site : Nat
  default_language : String
  available_languages : List String
deriving Repr, DecidableEq

/-- State read by get_language_settings: the site table, the settings
table, and a flag modelling a storage failure (database not ready, tables
missing) that makes every query raise. -/
structure SettingsDb where
  broken : Bool
  sites : List SiteModel
  settingsRows : List LocaleSettingsRow
deriving Repr, DecidableEq

/-- Site selection of get_language_settings: the default site if any,
otherwise the first site. -/
def selectSite (db : SettingsDb) : Option SiteModel :=
  match db.sites.find? (fun s => s.is_default_site) with
  | some s => some s
  | none => db.sites.head?

/-- Settings row lookup for a site
(LocaleSettings.objects.filter(site=site).first()). -/
def settingsForSite (db : SettingsDb) (s : SiteModel) : Option LocaleSettingsRow :=
  db.settingsRows.find? (fun r => r.site == s.id)

/-- Body of the try block of get_language_settings: raises (error) when
storage is broken, otherwise resolves the site and its settings row,
falling back to the static defaults when either is missing. -/
def getLanguageSettingsInner (db : SettingsDb) :
    Except Unit (String × List (String × String)) :=
  if db.broken then .error ()
  else
    match selectSite db with
    | some s =>
      match settingsForSite db s with
      | some ls =>
        .ok (ls.default_language, getAvailableLanguagesList ls.available_languages)
      | none => .ok (DEFAULT_LANGUAGE_CODE, DEFAULT_LANGUAGES)
    | none => .ok (DEFAULT_LANGUAGE_CODE, DEFAULT_LANGUAGES)

/-- Embedding of get_language_settings: the try body with the broad except
handler replacing any raised error by the static defaults. -/
def getLanguageSettings (db : SettingsDb) : String × List (String × String) :=
  match getLanguageSettingsInner db with
  | .ok v => v
  | .error _ => (DEFAULT_LANGUAGE_CODE, DEFAULT_LANGUAGES)

/-! Helper lemmas about the embedded operations. -/

/-- The dropdown child loop is append-accumulating: from any accumulator it
produces the filterMap of the children together with the disjunction of
their is_current flags. -/
theorem foldlChildren_eq (g : LinkItem → Option ResolvedLink)
    (children : List LinkItem) :
    ∀ (l : List ResolvedLink) (b : Bool),
      children.foldl
        (fun acc child =>
          match g child with
          | some c => (acc.1 ++ [c], acc.2 || c.is_current)
          | none => acc)
        (l, b)
      = (l ++ children.filterMap g,
         b || (children.filterMap g).any (fun c => c.is_current)) := by
  induction children with
  | nil => intro l b; simp
  | cons child rest ih =>
    intro l b
    cases hg : g child with
    | none => simp [hg, ih l b]
    | some c =>
      simp [hg, ih (l ++ [c]) (b || c.is_current), Bool.or_assoc]

/-- processChildren computes the filterMap of the resolved children and the
any-is_current flag. -/
theorem processChildren_eq (store : List Page) (cur dflt : String)
    (cp : Option Page) (cache : Option (List Page)) (children : List LinkItem) :
    processChildren store cur dflt cp cache children
      = (children.filterMap (processLinkItem store cur dflt cp cache),
         (children.filterMap (processLinkItem store cur dflt cp cache)).any
           (fun c => c.is_current)) := by
  simpa using foldlChildren_eq (processLinkItem store cur dflt cp cache) children [] false

/-- find? over a filter by a weaker predicate agrees with find? over the
original list. -/
theorem find?_filter_of_imp {α : Type} (l : List α) (p q : α → Bool)
    (h : ∀ a, q a = true → p a = true) :
    (l.filter p).find? q = l.find? q := by
  induction l with
  | nil => rfl
  | cons a t ih =>
    by_cases hq : q a = true
    · rw [List.filter_cons_of_pos (h a hq), List.find?_cons_of_pos _ hq,
        List.find?_cons_of_pos _ hq]
    · by_cases hp : p a = true
      · rw [List.filter_cons_of_pos hp, List.find?_cons_of_neg _ (by simpa using hq),
          List.find?_cons_of_neg _ (by simpa using hq), ih]
      · rw [List.filter_cons_of_neg (by simpa using hp),
          List.find?_cons_of_neg _ (by simpa using hq), ih]

/-- A successful store lookup returns a page carrying the looked-up id. -/
theorem storeFind_id (store : List Page) (pid : Nat) (P : Page)
    (h : storeFind store pid = some P) : P.id = pid := by
  have := List.find?_some h
  simpa using this

/-- The prefetched cache agrees with the store on every id it covers. -/
theorem storeFind_cache (store : List Page) (ids : List Nat) (pid : Nat)
    (P : Page) (hmem : pid ∈ ids) (h : storeFind store pid = some P) :
    storeFind (buildPagesCache store ids) pid = some P := by
  unfold storeFind buildPagesCache
  unfold storeFind at h
  refine (find?_filter_of_imp store _ _ ?_).trans h
  intro a ha
  have haid : a.id = pid := by simpa using ha
  simp [haid, hmem]

/-- Substituting through a cache built from a covering id list is the
identity on pages the store resolves. -/
theorem cacheLookupPage_built (store : List Page) (ids : List Nat) (P : Page)
    (hmem : P.id ∈ ids) (hfind : storeFind store P.id = some P) :
    cacheLookupPage (some (buildPagesCache store ids)) P = P := by
  have hc := storeFind_cache store ids P.id P hmem hfind
  have hne : (buildPagesCache store ids).isEmpty = false := by
    cases hbe : buildPagesCache store ids with
    | nil => rw [hbe] at hc; simp [storeFind] at hc
    | cons x xs => simp
  unfold cacheLookupPage
  simp [hne, hc]

/-- With no cache passed, the cache consultation keeps the page. -/
theorem cacheLookupPage_none (p : Page) : cacheLookupPage none p = p := rfl

/-- Resolving a link item with a cache built from a list of ids covering the
referenced ids of the item equals resolving it with no cache. -/
theorem processLinkItem_cache (store : List Page) (cur dflt : String)
    (cp : Option Page) (ids : List Nat) (child : LinkItem)
    (h : ∀ x ∈ collectChildPageIds store child, x ∈ ids) :
    processLinkItem store cur dflt cp (some (buildPagesCache store ids)) child
      = processLinkItem store cur dflt cp none child := by
  cases child with
  | externalLink u t a => rfl
  | pageLink pid ct a =>
    cases hf : storeFind store pid with
    | none => simp [processLinkItem, hf]
    | some p =>
      have hid : p.id = pid := storeFind_id store pid p hf
      by_cases hl : p.live = true
      · have hmem : pid ∈ ids := by
          apply h
          simp [collectChildPageIds, hf]
        have hcl : cacheLookupPage (some (buildPagesCache store ids)) p = p := by
          apply cacheLookupPage_built
          · rw [hid]; exact hmem
          · rw [hid]; exact hf
        simp [processLinkItem, hf, hl, hcl, cacheLookupPage_none]
      · have hl2 : p.live = false := by simpa using hl
        simp [processLinkItem, hf, hl2]

/-- Resolving a top-level item with a cache built from a covering id list
equals resolving it with no cache. -/
theorem processMenuItem_cache (store : List Page) (cur dflt : String)
    (cp : Option Page) (ids : List Nat) (item : MenuItem)
    (h : ∀ x ∈ collectPageIds store item, x ∈ ids) :
    processMenuItem store cur dflt cp (some (buildPagesCache store ids)) item
      = processMenuItem store cur dflt cp none item := by
  cases item with
  | pageLink pid ct a =>
    have hc := processLinkItem_cache store cur dflt cp ids (.pageLink pid ct a)
      (by intro x hx; exact h x (by simpa [collectPageIds, collectChildPageIds] using hx))
    simp [processMenuItem, hc]
  | externalLink u t a => rfl
  | dropdown title children =>
    have hch : ∀ child ∈ children,
        processLinkItem store cur dflt cp (some (buildPagesCache store ids)) child
          = processLinkItem store cur dflt cp none child := by
      intro child hcmem
      apply processLinkItem_cache
      intro x hx
      apply h
      simp only [collectPageIds, List.mem_flatMap]
      exact ⟨child, hcmem, hx⟩
    simp [processMenuItem, processChildren_eq, List.filterMap_congr hch]

/-! Claim theorems. -/

/-- Claim C1 (code bug witness): on a store holding a published page (id 1,
locale en) and an existing but unpublished translation of it in the active
locale es (id 2, live false), process_menu_item does not return none for the
page link: it returns the resolved item built from the unpublished
translation, whereas the claim (and the test
test_unpublished_translation_not_shown of navigation/tests.py) require
none. -/
theorem c1_unpublished_translation_is_rendered :
    processMenuItem
      [⟨1, true, "Draft Page", "/draft-page/", "en", 7⟩,
       ⟨2, false, "Pagina de Borrador", "/es/draft-page/", "es", 7⟩]
      "es" "en" none none (.pageLink 1 "" "")
      = some (.link ⟨"page_link",
          some ⟨2, false, "Pagina de Borrador", "/es/draft-page/", "es", 7⟩,
          "/es/draft-page/", "Pagina de Borrador", false⟩)
    ∧ (⟨2, false, "Pagina de Borrador", "/es/draft-page/", "es", 7⟩ : Page).live
        = false := by
  exact ⟨rfl, rfl⟩

/-- Claim C3: for a page link with anchor "top" (and no custom title) whose
target page resolves and is published, has no translation in the active
locale but has one in the default locale, resolution returns an item using
the default-locale translation and its url with "#top" appended; and the
locale cascade tries the active locale, then the default locale, then the
original page, short-circuiting on first success. -/
theorem c3_default_locale_fallback_with_anchor (store : List Page)
    (cur dflt : String) (cp : Option Page) (pid : Nat) (P Q : Page)
    (hfind : storeFind store pid = some P)
    (hlive : P.live = true)
    (hact : getTranslation store P cur = none)
    (hdef : getTranslation store P dflt = some Q) :
    (processMenuItem store cur dflt cp none (.pageLink pid "" "top")
      = some (.link ⟨"page_link", some Q, Q.url ++ "#top", Q.title,
          match cp with
          | some c => c.id == Q.id
          | none => false⟩))
    ∧ (∀ (pg T : Page), getTranslation store pg cur = some T →
        localizedPageOf store pg cur dflt = T)
    ∧ (∀ (pg T : Page), getTranslation store pg cur = none →
        getTranslation store pg dflt = some T →
        localizedPageOf store pg cur dflt = T)
    ∧ (∀ pg : Page, getTranslation store pg cur = none →
        getTranslation store pg dflt = none →
        localizedPageOf store pg cur dflt = pg) := by
  have htop : ("#" : String) ++ "top" = "#top" := rfl
  refine ⟨?_, ?_, ?_, ?_⟩
  · simp [processMenuItem, processLinkItem, hfind, hlive, cacheLookupPage_none,
      localizedPageOf, hact, hdef, String.append_assoc, htop]
  · intro pg T hT
    simp [localizedPageOf, hT]
  · intro pg T hn hT
    simp [localizedPageOf, hn, hT]
  · intro pg hn hd
    simp [localizedPageOf, hn, hd]

/-- Witness for claim C3: a Swedish original page, published, with a
published English default-locale translation and no French translation,
resolved for the French locale with anchor "top". -/
theorem c3_default_locale_fallback_witness :
    processMenuItem
      [⟨1, true, "Hem", "/sv/hem/", "sv", 5⟩,
       ⟨2, true, "Home", "/en/home/", "en", 5⟩]
      "fr" "en" none none (.pageLink 1 "" "top")
      = some (.link ⟨"page_link",
          some ⟨2, true, "Home", "/en/home/", "en", 5⟩,
          "/en/home/" ++ "#top", "Home", false⟩) :=
  (c3_default_locale_fallback_with_anchor
    [⟨1, true, "Hem", "/sv/hem/", "sv", 5⟩,
     ⟨2, true, "Home", "/en/home/", "en", 5⟩]
    "fr" "en" none 1
    ⟨1, true, "Hem", "/sv/hem/", "sv", 5⟩
    ⟨2, true, "Home", "/en/home/", "en", 5⟩
    rfl rfl rfl rfl).1

/-- Claim C4: a dropdown resolves its children in order, keeps exactly the
non-none resolved children, resolves to none when no child resolves, and
otherwise carries is_open true exactly when some resolved child is the
current page. -/
theorem c4_dropdown_resolution (store : List Page) (cur dflt : String)
    (cp : Option Page) (cache : Option (List Page)) (title : String)
    (children : List LinkItem) :
    (processMenuItem store cur dflt cp cache (.dropdown title children)
      = if (children.filterMap (processLinkItem store cur dflt cp cache)).isEmpty
        then none
        else some (.dropdown title
          (children.filterMap (processLinkItem store cur dflt cp cache))
          ((children.filterMap (processLinkItem store cur dflt cp cache)).any
            (fun c => c.is_current))))
    ∧ (((children.filterMap (processLinkItem store cur dflt cp cache)).any
          (fun c => c.is_current)) = true
        ↔ ∃ c ∈ children.filterMap (processLinkItem store cur dflt cp cache),
            c.is_current = true) := by
  constructor
  · simp only [processMenuItem, processChildren_eq]
  · exact List.any_eq_true

/-- Claim C5: the batch-prefetched pages cache built by navigation_menu is a
pure optimisation — for every store, menu, pair of locales and current page,
resolving with the cache produces exactly the menu resolved with
pages_cache = None. -/
theorem c5_cache_is_pure_optimisation (store : List Page)
    (items : List MenuItem) (cur dflt : String) (cp : Option Page) :
    navigationMenu store items cur dflt cp
      = resolveMenuNoCache store items cur dflt cp := by
  unfold navigationMenu resolveMenuNoCache
  by_cases he : items.isEmpty = true
  · have hnil : items = [] := by simpa using he
    subst hnil
    simp
  · have he2 : items.isEmpty = false := by simpa using he
    simp only [he2, Bool.false_eq_true, if_false]
    apply List.filterMap_congr
    intro item hitem
    apply processMenuItem_cache
    intro x hx
    simp only [List.mem_flatMap]
    exact ⟨item, hitem, hx⟩

/-- The removal loop is append-accumulating: from any accumulator pair it
produces the filter of removable codes and the filterMap of blocked
reports. -/
theorem removeUnusedLoop_aux (db : UsageDb) (desired : List String)
    (existing : List String) :
    ∀ (accR : List String) (accB : List (String × List (String × Nat) × Nat)),
      existing.foldl
        (fun acc code =>
          if code ∈ desired then acc
          else
            let usage := getLocaleUsage db code
            if usage = [] then (acc.1 ++ [code], acc.2)
            else (acc.1, acc.2 ++ [(code, usage, usageTotal usage)]))
        (accR, accB)
      = (accR ++ existing.filter
          (fun c => decide (c ∉ desired ∧ getLocaleUsage db c = [])),
         accB ++ existing.filterMap
          (fun c =>
            if c ∉ desired ∧ getLocaleUsage db c ≠ []
            then some (c, getLocaleUsage db c, usageTotal (getLocaleUsage db c))
            else none)) := by
  induction existing with
  | nil => intro accR accB; simp
  | cons c rest ih =>
    intro accR accB
    by_cases hd : c ∈ desired
    · simp [hd, ih accR accB]
    · by_cases hu : getLocaleUsage db c = []
      · simp [hd, hu, ih (accR ++ [c]) accB]
      · simp [hd, hu, ih accR (accB ++ [(c, getLocaleUsage db c,
          usageTotal (getLocaleUsage db c))])]

/-- Closed form of removeUnusedLoop. -/
theorem removeUnusedLoop_eq (db : UsageDb) (existing desired : List String) :
    removeUnusedLoop db existing desired
      = (existing.filter
          (fun c => decide (c ∉ desired ∧ getLocaleUsage db c = [])),
         existing.filterMap
          (fun c =>
            if c ∉ desired ∧ getLocaleUsage db c ≠ []
            then some (c, getLocaleUsage db c, usageTotal (getLocaleUsage db c))
            else none)) := by
  simpa using removeUnusedLoop_aux db desired existing [] []

/-- Claim C6: under remove-unused sync, a registry entry whose code is not
desired is deleted and reported removed exactly when its usage breakdown is
empty; otherwise it is kept and reported blocked together with the full
per-type breakdown and total count. -/
theorem c6_removal_guard (db : UsageDb) (registry desired : List String)
    (L : String) (hmem : L ∈ registry) (hnot : L ∉ desired) :
    (getLocaleUsage db L = [] →
      L ∈ (syncWithRemoval db registry desired true).removed
      ∧ L ∉ (syncWithRemoval db registry desired true).registry)
    ∧ (getLocaleUsage db L ≠ [] →
      L ∉ (syncWithRemoval db registry desired true).removed
      ∧ (L, getLocaleUsage db L, usageTotal (getLocaleUsage db L))
          ∈ (syncWithRemoval db registry desired true).blocked
      ∧ L ∈ (syncWithRemoval db registry desired true).registry) := by
  have hrm : (syncWithRemoval db registry desired true).removed
      = registry.filter (fun c => decide (c ∉ desired ∧ getLocaleUsage db c = [])) := by
    simp [syncWithRemoval, removeUnusedLoop_eq]
  have hbl : (syncWithRemoval db registry desired true).blocked
      = registry.filterMap
          (fun c =>
            if c ∉ desired ∧ getLocaleUsage db c ≠ []
            then some (c, getLocaleUsage db c, usageTotal (getLocaleUsage db c))
            else none) := by
    simp [syncWithRemoval, removeUnusedLoop_eq]
  have hrg : (syncWithRemoval db registry desired true).registry
      = (registry ++ desired.filter (fun c => decide (c ∉ registry))).filter
          (fun c => decide (c ∉ (syncWithRemoval db registry desired true).removed)) := by
    rw [hrm]
    simp [syncWithRemoval, removeUnusedLoop_eq]
  constructor
  · intro hu
    have hrem : L ∈ (syncWithRemoval db registry desired true).removed := by
      rw [hrm]
      exact List.mem_filter.mpr ⟨hmem, by simp [hnot, hu]⟩
    refine ⟨hrem, ?_⟩
    intro habs
    rw [hrg] at habs
    have := (List.mem_filter.mp habs).2
    simp at this
    exact this hrem
  · intro hu
    have hnrem : L ∉ (syncWithRemoval db registry desired true).removed := by
      intro habs
      rw [hrm] at habs
      have := (List.mem_filter.mp habs).2
      simp at this
      exact hu (this.2)
    refine ⟨hnrem, ?_, ?_⟩
    · rw [hbl]
      refine List.mem_filterMap.mpr ⟨L, hmem, ?_⟩
      simp [hnot, hu]
    · rw [hrg]
      refine List.mem_filter.mpr ⟨List.mem_append.mpr (Or.inl hmem), ?_⟩
      simp [hnrem]

/-- Witness for claim C6: with registry {en, es}, desired {en} and no
content at all, es is removed and deleted from the registry. -/
theorem c6_removal_guard_witness :
    "es" ∈ (syncWithRemoval ⟨[], []⟩ ["en", "es"] ["en"] true).removed
    ∧ "es" ∉ (syncWithRemoval ⟨[], []⟩ ["en", "es"] ["en"] true).registry :=
  (c6_removal_guard ⟨[], []⟩ ["en", "es"] ["en"] "es"
    (by decide) (by decide)).1 rfl

/-- Registry membership after the create-only sync: a code is present
afterwards exactly when it was present before or is desired. -/
theorem mem_syncCreateOnly (registry desired : List String) (c : String) :
    c ∈ (syncCreateOnly registry desired).1 ↔ c ∈ registry ∨ c ∈ desired := by
  by_cases hd : desired = []
  · subst hd
    simp [syncCreateOnly]
  · simp only [syncCreateOnly, hd, if_false]
    simp only [List.mem_append, List.mem_filter, List.mem_dedup, decide_eq_true_eq]
    by_cases har : c ∈ registry
    · simp [har]
    · simp [har]

/-- Claim C7: the create-only sync creates exactly the missing desired
codes, never deletes, and is idempotent — a second run with the same input
leaves the registry unchanged and creates nothing. -/
theorem c7_sync_create_only_idempotent (registry desired : List String)
    (c : String) :
    (c ∈ (syncCreateOnly registry desired).1 ↔ c ∈ registry ∨ c ∈ desired)
    ∧ (c ∈ registry → c ∈ (syncCreateOnly registry desired).1)
    ∧ syncCreateOnly (syncCreateOnly registry desired).1 desired
        = ((syncCreateOnly registry desired).1, []) := by
  refine ⟨mem_syncCreateOnly registry desired c,
    fun hc => (mem_syncCreateOnly registry desired c).mpr (Or.inl hc), ?_⟩
  by_cases hd : desired = []
  · subst hd
    simp [syncCreateOnly]
  · have hnil : desired.dedup.filter
        (fun x => decide (x ∉ (syncCreateOnly registry desired).1)) = [] := by
      refine List.filter_eq_nil_iff.mpr ?_
      intro a ha
      have hades : a ∈ desired := List.mem_dedup.mp ha
      simp [(mem_syncCreateOnly registry desired a).mpr (Or.inr hades)]
    conv_lhs => rw [syncCreateOnly]
    rw [if_neg hd]
    simp only [hnil, List.append_nil]

/-- Witness for claim C7: starting from registry {en}, syncing {en, fi, es}
once reaches a registry containing fi, and a second run changes nothing and
creates nothing. -/
theorem c7_sync_create_only_witness :
    ("fi" ∈ (syncCreateOnly ["en"] ["en", "fi", "es"]).1
      ↔ "fi" ∈ ["en"] ∨ "fi" ∈ ["en", "fi", "es"])
    ∧ syncCreateOnly (syncCreateOnly ["en"] ["en", "fi", "es"]).1
        ["en", "fi", "es"]
      = ((syncCreateOnly ["en"] ["en", "fi", "es"]).1, []) :=
  ⟨(c7_sync_create_only_idempotent ["en"] ["en", "fi", "es"] "fi").1,
   (c7_sync_create_only_idempotent ["en"] ["en", "fi", "es"] "fi").2.2⟩

/-- Claim C8: the language settings lookup is total and never raises — for
every state of the site and settings store (no site, no settings row, or a
storage failure included) it returns either the stored settings values or
the static defaults. -/
theorem c8_lookup_total_with_defaults (db : SettingsDb) :
    (∃ s ls, selectSite db = some s ∧ settingsForSite db s = some ls
      ∧ getLanguageSettings db
          = (ls.default_language, getAvailableLanguagesList ls.available_languages))
    ∨ getLanguageSettings db = (DEFAULT_LANGUAGE_CODE, DEFAULT_LANGUAGES) := by
  by_cases hb : db.broken = true
  · right
    simp [getLanguageSettings, getLanguageSettingsInner, hb]
  · have hb2 : db.broken = false := by simpa using hb
    cases hs : selectSite db with
    | none =>
      right
      simp [getLanguageSettings, getLanguageSettingsInner, hb2, hs]
    | some s =>
      cases hls : settingsForSite db s with
      | none =>
        right
        simp [getLanguageSettings, getLanguageSettingsInner, hb2, hs, hls]
      | some ls =>
        left
        exact ⟨s, ls, rfl, hls,
          by simp [getLanguageSettings, getLanguageSettingsInner, hb2, hs, hls]⟩

/-- Claim C9 counterexample: a persisted settings row with
availableLanguages = {en}, registry {en, fi}, no pages in fi, but one row of
a non-Page translatable model referencing fi. The spec usage count of fi is
1 > 0, yet clean succeeds instead of failing with LocaleInUse. -/
theorem c9_update_usage_counterexample :
    cleanSettings ⟨[], [⟨"myapp", "Banner", ["fi"]⟩]⟩ ["en", "fi"]
        ⟨true, "en", ["en"]⟩ = .ok ()
    ∧ usageTotal (getLocaleUsage ⟨[], [⟨"myapp", "Banner", ["fi"]⟩]⟩ "fi") = 1
    ∧ "fi" ∈ (["en", "fi"] : List String)
    ∧ "fi" ∉ (["en"] : List String) := by
  refine ⟨rfl, rfl, by decide, by decide⟩

/-- Claim C9 (amended): for well-formed settings (non-empty language set
containing the default), clean never fails with LocaleInUse on a
not-yet-persisted row, and on a persisted row it fails with LocaleInUse
exactly when some registry locale outside availableLanguages has a positive
Page count (Page rows only, not the all-model usage total). -/
theorem c9_clean_in_use_iff_pages (db : UsageDb) (registry : List String)
    (s : LocaleSettingsModel)
    (h1 : s.available_languages ≠ [])
    (h2 : s.default_language ∈ s.available_languages) :
    (s.persisted = false → cleanSettings db registry s = .ok ())
    ∧ (s.persisted = true →
        ((∃ c d n, cleanSettings db registry s = .error (.localeInUse c d n))
          ↔ ∃ c, c ∈ registry ∧ c ∉ s.available_languages
              ∧ 0 < cleanPageCount db c)) := by
  constructor
  · intro hp
    simp [cleanSettings, h1, h2, hp]
  · intro hp
    simp only [cleanSettings, h1, if_false, h2, not_true, hp, if_true]
    cases hfind : registry.find?
        (fun code => decide (code ∉ s.available_languages
          ∧ 0 < cleanPageCount db code)) with
    | some code =>
      have hpred := List.find?_some hfind
      have hmemr := List.mem_of_find?_eq_some hfind
      simp only [decide_eq_true_eq] at hpred
      constructor
      · intro _
        exact ⟨code, hmemr, hpred.1, hpred.2⟩
      · intro _
        exact ⟨code, languageDisplayName code, cleanPageCount db code, rfl⟩
    | none =>
      constructor
      · rintro ⟨c, d, n, habs⟩
        simp at habs
      · rintro ⟨c, hcr, hcn, hcp⟩
        exfalso
        have := List.find?_eq_none.mp hfind c hcr
        simp only [decide_eq_true_eq] at this
        exact this ⟨hcn, hcp⟩

/-- Witness for claim C9: a not-yet-persisted settings row passes clean
even though a fi page exists and fi is not among the available languages. -/
theorem c9_clean_in_use_witness :
    cleanSettings ⟨[⟨1, true, "Koti", "/koti/", "fi", 1⟩], []⟩ ["en", "fi"]
        ⟨false, "en", ["en"]⟩ = .ok () :=
  (c9_clean_in_use_iff_pages ⟨[⟨1, true, "Koti", "/koti/", "fi", 1⟩], []⟩
    ["en", "fi"] ⟨false, "en", ["en"]⟩ (by decide) (by decide)).1 rfl

/-- Claim C10: when no settings row exists, or no row lists any language,
the sync command returns early: even with removeUnused set, nothing is
created or deleted and the registry is unchanged. -/
theorem c10_sync_early_return (db : UsageDb) (registry : List String)
    (removeUnused : Bool) (settingsRows : List (List String))
    (h : settingsRows = [] ∨ settingsRows.flatten.dedup = []) :
    syncLocalesHandle db settingsRows removeUnused registry
      = ⟨registry, [], [], []⟩ := by
  rcases h with h | h
  · subst h
    simp [syncLocalesHandle]
  · by_cases he : settingsRows = []
    · subst he
      simp [syncLocalesHandle]
    · simp [syncLocalesHandle, he, h]

/-- Witness for claim C10: two settings rows, both with an empty language
list, remove-unused requested — the registry {en, fi} is left unchanged. -/
theorem c10_sync_early_return_witness :
    syncLocalesHandle ⟨[], []⟩ [[], []] true ["en", "fi"]
      = ⟨["en", "fi"], [], [], []⟩ :=
  c10_sync_early_return ⟨[], []⟩ ["en", "fi"] true [[], []] (Or.inr rfl)

/-- Summing the usage breakdown of a model list equals the plain sum of the
per-model counts (entries with count zero are omitted from the breakdown but
contribute nothing). -/
theorem usageTotal_breakdown_aux (L : String) (models : List TransModel) :
    ∀ n : Nat,
      (models.filterMap (fun m =>
        if 0 < modelCount m L
        then some (m.appLabel ++ "." ++ m.modelName, modelCount m L)
        else none)).foldl
          (fun a p => a + p.2) n
      = n + (models.map (fun m => modelCount m L)).sum := by
  induction models with
  | nil => intro n; simp
  | cons m ms ih =>
    intro n
    by_cases hc : 0 < modelCount m L
    · simp only [List.filterMap_cons, hc, if_true, List.foldl_cons, List.map_cons,
        List.sum_cons]
      rw [ih (n + modelCount m L)]
      omega
    · have h0 : modelCount m L = 0 := by omega
      simp only [List.filterMap_cons, hc, if_false, List.map_cons, List.sum_cons]
      rw [ih n, h0]
      omega

/-- The Page count used by clean equals the count of the wagtailcore.Page
entry of the translatable-model scan. -/
theorem cleanPageCount_eq_pageModel (db : UsageDb) (L : String) :
    cleanPageCount db L = modelCount (pageModelOf db) L := by
  show (db.pages.filter (fun p => p.locale == L)).length
      = ((db.pages.map (fun p => p.locale)).filter (fun c => c == L)).length
  induction db.pages with
  | nil => rfl
  | cons p ps ih =>
    by_cases hp : (p.locale == L) = true
    · simp [List.filter_cons, List.map_cons, hp, ih]
    · simp [List.filter_cons, List.map_cons, hp, ih]

/-- Claim C2 counterexample: with no pages and one non-Page translatable
model holding two fi rows, the clean usage count of fi is 0 while the sync
command total is 2. -/
theorem c2_usage_semantics_counterexample :
    cleanPageCount ⟨[], [⟨"myapp", "Banner", ["fi", "fi"]⟩]⟩ "fi" = 0
    ∧ usageTotal (getLocaleUsage ⟨[], [⟨"myapp", "Banner", ["fi", "fi"]⟩]⟩ "fi") = 2 :=
  ⟨rfl, rfl⟩

/-- Claim C2 (amended): the count used by the clean validation is the
wagtailcore.Page component of the sync command breakdown alone; the sync
total is that Page count plus the counts of every other translatable model,
so the two agree exactly on states where no other translatable model
references the locale. -/
theorem c2_usage_decomposition (db : UsageDb) (L : String) :
    cleanPageCount db L = modelCount (pageModelOf db) L
    ∧ usageTotal (getLocaleUsage db L)
        = cleanPageCount db L + (db.otherModels.map (fun m => modelCount m L)).sum
    ∧ ((∀ m ∈ db.otherModels, modelCount m L = 0) →
        usageTotal (getLocaleUsage db L) = cleanPageCount db L) := by
  have h1 := cleanPageCount_eq_pageModel db L
  have h2 : usageTotal (getLocaleUsage db L)
      = modelCount (pageModelOf db) L
        + (db.otherModels.map (fun m => modelCount m L)).sum := by
    show (((pageModelOf db :: db.otherModels).filterMap _).foldl _ 0) = _
    rw [usageTotal_breakdown_aux L (pageModelOf db :: db.otherModels) 0]
    simp
  refine ⟨h1, by rw [h2, h1], ?_⟩
  intro hz
  have hzero : (db.otherModels.map (fun m => modelCount m L)).sum = 0 := by
    refine List.sum_eq_zero ?_
    intro x hx
    obtain ⟨m, hm, hmx⟩ := List.mem_map.mp hx
    rw [← hmx]
    exact hz m hm
  rw [h2, h1, hzero]
  omega

/-- Witness for claim C2: on a state whose only translatable model with
fi rows is Page itself, the two usage numbers agree. -/
theorem c2_usage_decomposition_witness :
    usageTotal (getLocaleUsage ⟨[⟨1, true, "Koti", "/fi/koti/", "fi", 3⟩], []⟩ "fi")
      = cleanPageCount ⟨[⟨1, true, "Koti", "/fi/koti/", "fi", 3⟩], []⟩ "fi" :=
  (c2_usage_decomposition ⟨[⟨1, true, "Koti", "/fi/koti/", "fi", 3⟩], []⟩ "fi").2.2
    (by intro m hm; simp at hm)

end QuakerCMS
